import Mathlib

/-!
Shallow embedding of `lib/route.js` of the frontdoor repository: route-pattern
compilation (`normalizePath`), schema normalization (`normalizeParams`), the
matcher (`Route.match` with its `lastMatch` state), and the validating decoder
middleware (`decodeParams`).

JavaScript features are modelled as follows: thrown exceptions become
`Except Unit` (respectively `Except RouteError` at construction time), JS
objects used as string-keyed maps become association lists ordered by key
insertion, `undefined` becomes `Option`/`Value.undef`, and the compiled
regular expression becomes a list of `Tok` items with an executable
backtracking matcher (`matchToks`) whose capture item has the semantics of
the character class produced by the source (`[^\\/]+` after the escaping
pass, i.e. one or more characters that are neither `/` nor `\`), anchored at
both ends because the matcher must consume the whole input.
-/

namespace Frontdoor

/-- A JavaScript runtime value as far as this library observes it:
`undefined`, strings (path captures, query values), numbers and booleans
(JSON-decoded body values). -/
inductive Value where
  | undef
  | vStr (s : String)
  | vNum (n : Int)
  | vBool (b : Bool)
  deriving DecidableEq, Repr

/-- A resolved type-capability object from the injected type registry
(collaborator, `require("./types")`): a display name (`toString()`), a
`parse` that may throw, and a `check` that may throw. -/
structure Ty where
  name : String
  parse : Value → Except Unit Value
  check : Value → Except Unit Bool

/-- One item of the compiled route pattern: a literal character, or the
capture rule inserted for a `/:name` segment. -/
inductive Tok where
  | lit (c : Char)
  | capture
  deriving DecidableEq, Repr

/-- Characters admitted by the compiled capture rule.  The source inserts
`/([^\/]+)` and then escapes every `/` and `.` in the whole pattern
(`.replace(/([\/.])/g, '\\$1')`), which turns the class `[^\/]` into
`[^\\/]`: neither `/` nor `\` is admitted. -/
def capOk (c : Char) : Bool :=
  ¬ (c = '/' ∨ c = '\\')

/-- `[n, n-1, ..., 1]`: candidate capture lengths, longest first (the
capture `([^\\/]+)` is greedy, backtracking to shorter lengths). -/
def descLens : Nat → List Nat
  | 0 => []
  | n + 1 => (n + 1) :: descLens n

/-- Backtracking interpreter for the compiled pattern, anchored at both
ends: the whole input must be consumed.  Fuel-indexed so that it is
structurally recursive; `matchToks` supplies sufficient fuel. -/
def matchCore : Nat → List Tok → List Char → Option (List (List Char))
  | 0, _, _ => none
  | _ + 1, [], ds => if ds.isEmpty then some [] else none
  | fuel + 1, .lit c :: ts, ds =>
    match ds with
    | [] => none
    | d :: ds' => if c = d then matchCore fuel ts ds' else none
  | fuel + 1, .capture :: ts, ds =>
    (descLens ((ds.takeWhile capOk).length)).findSome?
      (fun n => (matchCore fuel ts (ds.drop n)).map (fun caps => ds.take n :: caps))

/-- The anchored matcher: `path.match(routeRe)` restricted to the capture
list (`some caps` iff the regular expression matches the whole path). -/
def matchToks (toks : List Tok) (ds : List Char) : Option (List (List Char)) :=
  matchCore (toks.length + 1) toks ds

/-- `\w` of the source's `/\/:(\w+)/g`: ASCII letters, digits, underscore. -/
def isWordChar (c : Char) : Bool :=
  c.isAlpha || c.isDigit || c = '_'

/-- The template scan of `normalizePath` restricted to its two outputs that
feed the matcher: the compiled pattern items and the ordered capture keys.
Each occurrence of `/:name` (slash, colon, one or more word characters,
maximal run) becomes `lit '/', capture` and appends `name`; every other
character becomes a literal item (the source escapes `/` and `.`, which
keeps them literal).  Fuel-indexed for structural recursion. -/
def scanCore : Nat → List Char → List Tok × List String
  | 0, _ => ([], [])
  | _ + 1, [] => ([], [])
  | fuel + 1, '/' :: ':' :: c :: rest =>
    if isWordChar c then
      (Tok.lit '/' :: Tok.capture :: (scanCore fuel ((c :: rest).dropWhile isWordChar)).1,
        String.mk ((c :: rest).takeWhile isWordChar) :: (scanCore fuel ((c :: rest).dropWhile isWordChar)).2)
    else
      (Tok.lit '/' :: (scanCore fuel (':' :: c :: rest)).1, (scanCore fuel (':' :: c :: rest)).2)
  | fuel + 1, c :: rest =>
    (Tok.lit c :: (scanCore fuel rest).1, (scanCore fuel rest).2)

/-- Pattern items and capture keys compiled from a template.

The token list is a faithful rendering of the compiled pattern *string*
(see `compileRe` and the bridge `compileRe_renderToks` below), but the
matcher `matchToks` gives `lit` items literal-character semantics, which
agrees with the source regular expression only for characters without
regex metacharacter meaning — the source escapes nothing but `/` and `.`
(see `metaFree`). -/
def scanTpl (tpl : List Char) : List Tok × List String :=
  scanCore (tpl.length + 1) tpl

/-- The first textual pass of `normalizePath`,
`path.replace(/\/:(\w+)/g, ...)`, on the template string: every `/:name`
occurrence is replaced by the replacement string `/([^\/]+)` (the JS
literal `"\/([^\\/]+)"`); all other characters are kept.  Fuel-indexed
like `scanCore`. -/
def replaceCore : Nat → List Char → List Char
  | 0, _ => []
  | _ + 1, [] => []
  | fuel + 1, '/' :: ':' :: c :: rest =>
    if isWordChar c then
      '/' :: '(' :: '[' :: '^' :: '\\' :: '/' :: ']' :: '+' :: ')' ::
        replaceCore fuel ((c :: rest).dropWhile isWordChar)
    else
      '/' :: replaceCore fuel (':' :: c :: rest)
  | fuel + 1, c :: rest =>
    c :: replaceCore fuel rest

/-- The template after the first replace pass. -/
def replaceTpl (tpl : List Char) : List Char :=
  replaceCore (tpl.length + 1) tpl

/-- The second textual pass, `.replace(/([\/.])/g, '\\$1')`: a backslash
is inserted before every `/` and `.` of the whole string — including the
ones inside the just-inserted capture rules. -/
def escapeSlashDot : List Char → List Char
  | [] => []
  | c :: rest =>
    if c = '/' ∨ c = '.' then '\\' :: c :: escapeSlashDot rest
    else c :: escapeSlashDot rest

/-- The exact source string handed to `new RegExp('^' + path + '$')`:
both replace passes, anchored at both ends.  Any template character
other than `/`, `.` and the consumed `/:name` segments reaches the
regular-expression compiler verbatim, so raw metacharacters such as `(`
or `+` keep their metacharacter meaning there. -/
def compileRe (tpl : List Char) : List Char :=
  '^' :: escapeSlashDot (replaceTpl tpl) ++ ['$']

/-- The two construction-time errors thrown by the source, carrying the
offending `source` string. -/
inductive RouteError where
  | conflictingSource (found : String)
  | invalidSource (found : String)
  deriving DecidableEq, Repr

/-- A type specifier as accepted by the schema: a registered type name, a
raw regular-expression pattern, an already-resolved type object, or the
JS `undefined` that an unset `type` leaves behind. -/
inductive TypeSpec where
  | name (s : String)
  | re (pat : String)
  | obj (t : Ty)
  | undef

/-- A parameter declaration as supplied by the caller (`options.params`)
or grown by the compiler; unset JS properties are `none`.  The
`name`/`description` metadata has no behavioural effect and is omitted. -/
structure ParamDecl where
  type? : Option TypeSpec := none
  source? : Option String := none
  optional? : Option Bool := none

/-- JS falsiness of `param.source`: `undefined` or the empty string. -/
def srcFalsy : Option String → Bool
  | none => true
  | some s => s = ""

/-- JS falsiness of `param.type`: `undefined` or the empty string (a
RegExp or an object is always truthy). -/
def tyFalsy : Option TypeSpec → Bool
  | none => true
  | some (.name s) => s = ""
  | some _ => false

/-- `param.type = param.type || d`. -/
def orTypeD (t? : Option TypeSpec) (d : String) : TypeSpec :=
  match t? with
  | some t => if tyFalsy (some t) then TypeSpec.name d else t
  | none => TypeSpec.name d

/-- Property write on a JS object viewed as an association list: update in
place when the key exists, append otherwise. -/
def upsert {β : Type} : List (String × β) → String → β → List (String × β)
  | [], k, v => [(k, v)]
  | (k', v') :: t, k, v =>
    if k' = k then (k, v) :: t else (k', v') :: upsert t k v

/-- The declaration for URL-segment name `w` after the compiler's type
defaulting: the existing entry (or a fresh `{}`) with `type` defaulted to
`"string"`. -/
def urlDecl (ps : List (String × ParamDecl)) (w : String) : ParamDecl :=
  { (ps.lookup w).getD {} with
    type? := some (orTypeD ((ps.lookup w).getD {}).type? "string") }

/-- `normalizePath` of the source: one left-to-right scan producing the
pattern items and ordered keys while completing `params` for every
`/:name` segment (`type` defaulted to `"string"`, `source` forced to
`"url"`), and throwing when a URL segment name was declared with a
non-empty source other than `"url"`.  Fuel-indexed like `scanCore`. -/
def normCore : Nat → List Char → List (String × ParamDecl) →
    Except RouteError (List Tok × List String × List (String × ParamDecl))
  | 0, _, ps => .ok ([], [], ps)
  | _ + 1, [], ps => .ok ([], [], ps)
  | fuel + 1, '/' :: ':' :: c :: rest, ps =>
    if isWordChar c then
      let w := String.mk ((c :: rest).takeWhile isWordChar)
      if srcFalsy (urlDecl ps w).source? ∨ (urlDecl ps w).source? = some "url" then
        match normCore fuel ((c :: rest).dropWhile isWordChar)
            (upsert ps w { urlDecl ps w with source? := some "url" }) with
        | .error e => .error e
        | .ok (ts, ks, ps') => .ok (Tok.lit '/' :: Tok.capture :: ts, w :: ks, ps')
      else
        .error (.conflictingSource (((urlDecl ps w).source?).getD ""))
    else
      match normCore fuel (':' :: c :: rest) ps with
      | .error e => .error e
      | .ok (ts, ks, ps') => .ok (Tok.lit '/' :: ts, ks, ps')
  | fuel + 1, c :: rest, ps =>
    match normCore fuel rest ps with
    | .error e => .error e
    | .ok (ts, ks, ps') => .ok (Tok.lit c :: ts, ks, ps')

/-- A normalized parameter: resolved source, resolved type object,
boolean optionality. -/
structure Param where
  source : String
  type : Ty
  optional : Bool

/-- `normalizeParams` body for one declaration: source-dependent type
defaulting (`query` → `"string"`, unset/`body` → `"json"` with `source`
forced to `"body"`), rejection of any other source, coercion of
`optional`, RegExp wrapping (`new RegExpType(...)`, modelled by the
injected `reType`), and resolution through the registry (`types.get`,
modelled by the injected `get`). -/
def normalizeOne (reType : String → Ty) (get : TypeSpec → Ty) (d : ParamDecl) :
    Except RouteError Param :=
  let branch : Except RouteError (String × Option TypeSpec) :=
    if d.source? = some "query" then
      .ok ("query", some (orTypeD d.type? "string"))
    else if srcFalsy d.source? ∨ d.source? = some "body" then
      .ok ("body", some (orTypeD d.type? "json"))
    else if d.source? = some "url" then
      .ok ("url", d.type?)
    else
      .error (.invalidSource ((d.source?).getD ""))
  match branch with
  | .error e => .error e
  | .ok (src, t?) =>
    let spec := match t? with
      | none => TypeSpec.undef
      | some (.re p) => TypeSpec.obj (reType p)
      | some s => s
    .ok { source := src, type := get spec, optional := (d.optional?).getD false }

/-- `normalizeParams`: every declaration, in insertion order; the first
invalid source aborts. -/
def normalizeParams (reType : String → Ty) (get : TypeSpec → Ty) :
    List (String × ParamDecl) → Except RouteError (List (String × Param))
  | [] => .ok []
  | (k, d) :: rest =>
    match normalizeOne reType get d with
    | .error e => .error e
    | .ok p =>
      match normalizeParams reType get rest with
      | .error e => .error e
      | .ok ps => .ok ((k, p) :: ps)

/-- A caller-supplied `options.params` entry: a bare type specifier
(string or RegExp, wrapped into `{type: ...}` by the source) or a full
declaration object. -/
inductive ParamIn where
  | bare (t : TypeSpec)
  | decl (d : ParamDecl)

/-- The wrapping pre-pass at the top of `normalizePath`. -/
def wrapBare : ParamIn → ParamDecl
  | .bare t => { type? := some t }
  | .decl d => d

/-- The `options` object of the constructor (handler wrapping and the
middleware list are not modelled; `decodeParams` below is the validator
middleware the constructor unshifts). -/
structure RouteOptions where
  method? : Option String := none
  name? : Option String := none
  params : List (String × ParamIn) := []

/-- The immutable outcome of route construction. -/
structure RouteSpec where
  toks : List Tok
  keys : List String
  params : List (String × Param)
  method : String
  name? : Option String

/-- `(options.method || "GET").toLowerCase()`, character by character. -/
def lowerStr (s : String) : String :=
  String.mk (s.data.map Char.toLower)

/-- The `Route` constructor: wrap bare params, compile the template
(`normalizePath`), normalize the schema (`normalizeParams`), lowercase
the method.  A construction-time throw yields `.error` and no
`RouteSpec`. -/
def Route.make (route : String) (opts : RouteOptions)
    (reType : String → Ty) (get : TypeSpec → Ty) : Except RouteError RouteSpec :=
  let ps0 := opts.params.map (fun kp => (kp.1, wrapBare kp.2))
  match normCore (route.data.length + 1) route.data ps0 with
  | .error e => .error e
  | .ok (toks, keys, ps1) =>
    match normalizeParams reType get ps1 with
    | .error e => .error e
    | .ok ps2 =>
      .ok { toks := toks, keys := keys, params := ps2,
            method := lowerStr ((opts.method?).getD "GET"), name? := opts.name? }

/-- `m[i+1]` for the current key: the head capture, or JS `undefined`
when the capture list is exhausted. -/
def capVal : List (List Char) → Value
  | [] => .undef
  | cs :: _ => .vStr (String.mk cs)

/-- The per-key loop of `Route.match` after the regular expression
matched: parse (a throw is caught, clears the state and fails), check
(`false` clears the state and fails; a throw propagates, as in the
source), and record the parsed value under the key (later duplicate keys
overwrite).  `acc` is the `lastMatch` object being built. -/
def bindCaps (params : List (String × Param)) :
    List String → List (List Char) → List (String × Value) →
    Except Unit (Bool × List (String × Value))
  | [], _, acc => .ok (true, acc)
  | k :: ks, caps, acc =>
    match params.lookup k with
    | none => .error ()
    | some p =>
      match p.type.parse (capVal caps) with
      | .error _ => .ok (false, [])
      | .ok v =>
        match p.type.check v with
        | .error e => .error e
        | .ok b =>
          if b then bindCaps params ks caps.tail (upsert acc k v)
          else .ok (false, [])

/-- `Route.match` as a state transformer on `lastMatch`: apply the
anchored pattern; on no match return `false` with `lastMatch` untouched
(the source returns before the `this.lastMatch = {}` reset); otherwise
rebuild `lastMatch` from the captures via `bindCaps`. -/
def routeMatch (R : RouteSpec) (last : List (String × Value)) (path : String) :
    Except Unit (Bool × List (String × Value)) :=
  match matchToks R.toks path.data with
  | none => .ok (false, last)
  | some caps => bindCaps R.params R.keys caps []

/-- One validation-error record as pushed by `decodeParams`; `source` and
`type_expected` are `none` when the source object literal has no such
property. -/
structure Violation where
  resource : String
  field : String
  source : Option String
  type_expected : Option String
  code : String
  deriving DecidableEq, Repr

/-- The `missing_field` record: `{resource, field, source, code}`. -/
def missingRec (res k : String) (p : Param) : Violation :=
  { resource := res, field := k, source := some p.source,
    type_expected := none, code := "missing_field" }

/-- The `invalid` record: `{resource, field, type_expected, code}` — the
source literal carries no `source` property here. -/
def invalidRec (res k : String) (p : Param) : Violation :=
  { resource := res, field := k, source := none,
    type_expected := some p.type.name, code := "invalid" }

/-- `query[key]`: the raw string, or JS `undefined` when absent. -/
def queryVal : Option String → Value
  | none => .undef
  | some s => .vStr s

/-- The per-parameter body of the `decodeParams` loop: the
missing-required test, then the source switch.  Body values are only
`check`ed (a throw propagates); query values are `parse`d inside
`try`/`catch` (a throw degrades to an `invalid` error) and then
`check`ed outside it (a throw propagates); url values are trusted.
Returns the violation pushed (if any) and the value recorded in
`req.params` (if any). -/
def decodeOne (res k : String) (p : Param) (body : List (String × Value))
    (query : List (String × String)) (urlp : List (String × Value)) :
    Except Unit (Option Violation × Option Value) :=
  if ¬ p.optional ∧ ((p.source = "body" ∧ (body.lookup k).isNone) ∨
      (p.source = "query" ∧ (query.lookup k).isNone) ∨
      (p.source = "url" ∧ (urlp.lookup k).isNone)) then
    .ok (some (missingRec res k p), none)
  else if p.source = "body" then
    if p.optional ∧ (body.lookup k).isNone then .ok (none, none)
    else
      let v := (body.lookup k).getD .undef
      match p.type.check v with
      | .error e => .error e
      | .ok b => if b then .ok (none, some v) else .ok (some (invalidRec res k p), none)
  else if p.source = "query" then
    if p.optional ∧ (query.lookup k).isNone then .ok (none, none)
    else
      match p.type.parse (queryVal (query.lookup k)) with
      | .error _ => .ok (some (invalidRec res k p), none)
      | .ok v =>
        match p.type.check v with
        | .error e => .error e
        | .ok b => if b then .ok (none, some v) else .ok (some (invalidRec res k p), none)
  else if p.source = "url" then
    if p.optional ∧ (urlp.lookup k).isNone then .ok (none, none)
    else .ok (none, some ((urlp.lookup k).getD .undef))
  else
    .ok (none, none)

/-- The `decodeParams` loop over all declared parameters in insertion
order, accumulating the `errors` list and the `req.params` object. -/
def collectParams (res : String) (body : List (String × Value))
    (query : List (String × String)) (urlp : List (String × Value)) :
    List (String × Param) → List Violation → List (String × Value) →
    Except Unit (List Violation × List (String × Value))
  | [], errs, binds => .ok (errs, binds)
  | (k, p) :: rest, errs, binds =>
    match decodeOne res k p body query urlp with
    | .error e => .error e
    | .ok (vio?, val?) =>
      collectParams res body query urlp rest (errs ++ vio?.toList)
        (match val? with
         | some v => upsert binds k v
         | none => binds)

/-- Just enough JSON structure for the 422 body the source serializes. -/
inductive Json where
  | str (s : String)
  | arr (xs : List Json)
  | obj (fields : List (String × Json))

/-- One violation as a JSON object, properties in the source literal's
insertion order; absent `source`/`type_expected` produce no property. -/
def vioJson (v : Violation) : Json :=
  .obj ([("resource", Json.str v.resource), ("field", Json.str v.field)]
    ++ (match v.source with
        | some s => [("source", Json.str s)]
        | none => [])
    ++ (match v.type_expected with
        | some t => [("type_expected", Json.str t)]
        | none => [])
    ++ [("code", Json.str v.code)])

/-- What the middleware does with the request: write a response and stop,
or populate `req.params` and call `next()`. -/
inductive Outcome where
  | response (status : Nat) (headers : List (String × String)) (body : Json)
  | next (params : List (String × Value))

/-- The `decodeParams` middleware: run the loop; with any violations
respond `422`/`application/json` with the serialized error object and do
not call `next`; otherwise forward the decoded parameters. -/
def decodeParams (name? : Option String) (ps : List (String × Param))
    (body : List (String × Value)) (query : List (String × String))
    (urlp : List (String × Value)) : Except Unit Outcome :=
  match collectParams (name?.getD "root") body query urlp ps [] [] with
  | .error e => .error e
  | .ok (errs, binds) =>
    if errs.isEmpty then .ok (.next binds)
    else
      .ok (.response 422 [("Content-Type", "application/json")]
        (.obj [("message", Json.str "Validation failed"),
               ("errors", Json.arr (errs.map vioJson))]))

/-! Derived counting functions and sample collaborator types used to
exercise the definitions on concrete routes and requests. -/

/-- Literal-slash count of a compiled pattern: the number of `/` a
matching path must contain, captures contributing none. -/
def litSlash : List Tok → Nat
  | [] => 0
  | .lit c :: ts => (if c = '/' then 1 else 0) + litSlash ts
  | .capture :: ts => litSlash ts

/-- Number of capture rules in a compiled pattern. -/
def countCaptures : List Tok → Nat
  | [] => 0
  | .capture :: ts => countCaptures ts + 1
  | .lit _ :: ts => countCaptures ts

/-- Characters with no regex metacharacter meaning.  The source escapes
only `/` and `.`; every character in this list flows into
`new RegExp(...)` unescaped and keeps its metacharacter semantics there,
so the literal-character reading of `Tok.lit` (and hence `matchToks`) is
faithful to the source regular expression only for templates whose
characters all satisfy `metaFree`. -/
def metaFree (c : Char) : Bool :=
  ¬ (c = '(' ∨ c = ')' ∨ c = '[' ∨ c = ']' ∨ c = '\x7b' ∨ c = '\x7d' ∨
     c = '*' ∨ c = '+' ∨ c = '?' ∨ c = '|' ∨ c = '^' ∨ c = '$' ∨ c = '\\')

/-- How one pattern token reads back as compiled regex source text:
literals with `/` and `.` escaped (the second replace pass), the capture
rule as the escaped class `([^\\/]+)`. -/
def renderTok : Tok → List Char
  | .lit c => if c = '/' ∨ c = '.' then ['\\', c] else [c]
  | .capture => ['(', '[', '^', '\\', '\\', '/', ']', '+', ')']

/-- A token list read back as compiled regex source text. -/
def renderToks : List Tok → List Char
  | [] => []
  | t :: ts => renderTok t ++ renderToks ts

/-- A token whose rendering introduces no metacharacter beyond the
capture rule itself. -/
def tokSafe : Tok → Bool
  | .lit c => metaFree c
  | .capture => true

/-- Unescaped-`(` counter over regex source text: counts every `(`
preceded by an even number of consecutive backslashes.  For patterns
that contain no `(?` construct and no `(` inside a bracket class — true
of everything `compileRe` produces from templates without raw `[` or `?`
— this is exactly the number of capturing groups the regex engine
allocates. -/
def groupCountAux : Bool → List Char → Nat
  | _, [] => 0
  | esc, c :: rest =>
    if c = '\\' then groupCountAux (!esc) rest
    else (if c = '(' ∧ esc = false then 1 else 0) + groupCountAux false rest

/-- Capturing-group count of a compiled pattern string (see
`groupCountAux` for the exact reading). -/
def groupCount (s : List Char) : Nat :=
  groupCountAux false s

/-- The violation `decodeOne` would push for one parameter, if any. -/
def violationOf (res k : String) (p : Param) (body : List (String × Value))
    (query : List (String × String)) (urlp : List (String × Value)) : Option Violation :=
  match decodeOne res k p body query urlp with
  | .ok (some v, _) => some v
  | _ => none

/-- A registry string type: parse is the identity, check always passes. -/
def strTy : Ty :=
  { name := "string", parse := fun v => .ok v, check := fun _ => .ok true }

/-- A registry type whose check rejects the string `"z"`. -/
def notZTy : Ty :=
  { name := "notz", parse := fun v => .ok v,
    check := fun v => .ok (v != Value.vStr "z") }

/-- A registry type whose check always fails (any value is invalid). -/
def neverTy : Ty :=
  { name := "json", parse := fun v => .ok v, check := fun _ => .ok false }

/-- A registry type whose check throws. -/
def throwCheckTy : Ty :=
  { name := "boom", parse := fun v => .ok v, check := fun _ => .error () }

/-- A registry type whose parse throws. -/
def throwParseTy : Ty :=
  { name := "strict", parse := fun _ => .error (), check := fun _ => .ok true }

/-- A required body parameter of type `strTy`. -/
def reqBodyParam : Param := { source := "body", type := strTy, optional := false }

/-- A required body parameter whose check always fails. -/
def neverParam : Param := { source := "body", type := neverTy, optional := false }

/-- A required body parameter whose check throws. -/
def throwCheckParam : Param := { source := "body", type := throwCheckTy, optional := false }

/-- A required query parameter whose parse throws. -/
def throwParseParam : Param := { source := "query", type := throwParseTy, optional := false }

/-- Fallback route for extracting the `RouteSpec` of a successful construction. -/
def emptyRoute : RouteSpec := ⟨[], [], [], "get", none⟩

/-- Extract the constructed route, or a fallback on error. -/
def routeOr (d : RouteSpec) : Except RouteError RouteSpec → RouteSpec
  | .ok R => R
  | .error _ => d

/-- The compiled route for template `/users/:id` with a string-only registry. -/
def usersRoute : RouteSpec :=
  routeOr emptyRoute (Route.make "/users/:id" {} (fun _ => strTy) (fun _ => strTy))

/-- The compiled route for the duplicate-name template `/:id/x/:id`. -/
def dupRoute : RouteSpec :=
  routeOr emptyRoute (Route.make "/:id/x/:id" {} (fun _ => strTy) (fun _ => strTy))

/-- The duplicate-name route with a registry type that rejects `"z"`. -/
def zRoute : RouteSpec :=
  routeOr emptyRoute (Route.make "/:id/x/:id" {} (fun _ => notZTy) (fun _ => notZTy))

/-!
Supporting lemmas about the matcher, the compiler, and the decoder.
-/

theorem matchToks_nil_nil : matchToks [] [] = some [] := rfl

theorem matchToks_nil_cons (d : Char) (ds : List Char) :
    matchToks [] (d :: ds) = none := rfl

theorem matchToks_lit_nil (c : Char) (ts : List Tok) :
    matchToks (.lit c :: ts) [] = none := rfl

theorem matchToks_lit_cons (c : Char) (ts : List Tok) (d : Char) (ds : List Char) :
    matchToks (.lit c :: ts) (d :: ds) = if c = d then matchToks ts ds else none := rfl

theorem matchToks_cap (ts : List Tok) (ds : List Char) :
    matchToks (.capture :: ts) ds =
      (descLens ((ds.takeWhile capOk).length)).findSome?
        (fun n => (matchToks ts (ds.drop n)).map (fun caps => ds.take n :: caps)) := rfl

theorem mem_descLens {n k : Nat} : n ∈ descLens k ↔ 1 ≤ n ∧ n ≤ k := by
  induction k with
  | zero => simp only [descLens, List.not_mem_nil, false_iff]; omega
  | succ k ih =>
    simp only [descLens, List.mem_cons, ih]
    omega

theorem takeWhile_all {p : Char → Bool} {l : List Char} (h : ∀ c ∈ l, p c) :
    l.takeWhile p = l :=
  List.takeWhile_eq_self_iff.mpr h

theorem mem_take_takeWhile {p : Char → Bool} {l : List Char} {n : Nat}
    (h : n ≤ (l.takeWhile p).length) {c : Char} (hc : c ∈ l.take n) : p c := by
  have h1 : l.take n = (l.takeWhile p).take n := by
    conv_lhs => rw [← List.takeWhile_append_dropWhile (p := p) (l := l)]
    rw [List.take_append_eq_append_take, Nat.sub_eq_zero_of_le h, List.take_zero,
      List.append_nil]
  rw [h1] at hc
  exact List.mem_takeWhile_imp (List.take_subset n _ hc)

theorem matchToks_cap_inv {ts : List Tok} {ds : List Char} {caps : List (List Char)}
    (h : matchToks (.capture :: ts) ds = some caps) :
    ∃ n, 1 ≤ n ∧ n ≤ (ds.takeWhile capOk).length ∧
      ∃ caps', matchToks ts (ds.drop n) = some caps' ∧ caps = ds.take n :: caps' := by
  rw [matchToks_cap] at h
  obtain ⟨n, hn, hfn⟩ := List.exists_of_findSome?_eq_some h
  rw [mem_descLens] at hn
  cases hmc : matchToks ts (ds.drop n) with
  | none => rw [hmc] at hfn; simp at hfn
  | some caps' =>
    rw [hmc] at hfn
    simp only [Option.map_some', Option.some.injEq] at hfn
    exact ⟨n, hn.1, hn.2, caps', hmc, hfn.symm⟩

theorem count_slash_of_match :
    ∀ (toks : List Tok) (ds : List Char) (caps : List (List Char)),
      matchToks toks ds = some caps → ds.count '/' = litSlash toks := by
  intro toks
  induction toks with
  | nil =>
    intro ds caps h
    cases ds with
    | nil => simp [litSlash]
    | cons d ds' => rw [matchToks_nil_cons] at h; exact absurd h (by simp)
  | cons t ts ih =>
    cases t with
    | lit c =>
      intro ds caps h
      cases ds with
      | nil => rw [matchToks_lit_nil] at h; exact absurd h (by simp)
      | cons d ds' =>
        rw [matchToks_lit_cons] at h
        by_cases hcd : c = d
        · rw [if_pos hcd] at h
          subst hcd
          have := ih ds' caps h
          simp only [List.count_cons, litSlash, beq_iff_eq, this]
          by_cases hc : c = '/'
          · simp only [hc, if_pos rfl]
            omega
          · simp [hc]
        · rw [if_neg hcd] at h; exact absurd h (by simp)
    | capture =>
      intro ds caps h
      obtain ⟨n, h1, hk, caps', hm, hcaps⟩ := matchToks_cap_inv h
      have hsplit : ds.count '/' = (ds.take n).count '/' + (ds.drop n).count '/' := by
        conv_lhs => rw [← List.take_append_drop n ds]
        exact List.count_append _ _ _
      have htake : (ds.take n).count '/' = 0 := by
        rw [List.count_eq_zero]
        intro hmem
        have := mem_take_takeWhile hk hmem
        simp [capOk] at this
      have := ih (ds.drop n) caps' hm
      simp only [litSlash]
      omega

theorem capOk_ne_slash {c : Char} (h : capOk c) : c ≠ '/' := by
  simp [capOk] at h
  exact h.1

theorem takeWhile_capOk_append {s rest : List Char} (hok : ∀ c ∈ s, capOk c) :
    (s ++ '/' :: rest).takeWhile capOk = s := by
  rw [List.takeWhile_append, takeWhile_all hok, if_pos rfl, List.takeWhile_cons]
  simp [capOk]

theorem matchToks_cap_end {s : List Char} (hne : s ≠ [])
    (hok : ∀ c ∈ s, capOk c) : matchToks [.capture] s = some [s] := by
  rw [matchToks_cap, takeWhile_all hok]
  obtain ⟨m, hm⟩ := Nat.exists_eq_succ_of_ne_zero (fun h => hne (List.length_eq_zero.mp h))
  rw [Nat.succ_eq_add_one] at hm
  rw [hm, descLens, List.findSome?_cons]
  have hdrop : s.drop (m + 1) = [] := by
    rw [← hm]; exact List.drop_length s
  have htake : s.take (m + 1) = s := by
    rw [← hm]; exact List.take_length s
  rw [hdrop, htake, matchToks_nil_nil]
  rfl

theorem matchToks_cap_slash {ts : List Tok} {s rest : List Char}
    (hne : s ≠ []) (hok : ∀ c ∈ s, capOk c) :
    matchToks (.capture :: .lit '/' :: ts) (s ++ '/' :: rest) =
      (matchToks ts rest).map (fun caps => s :: caps) := by
  rw [matchToks_cap, takeWhile_capOk_append hok]
  obtain ⟨m, hm⟩ := Nat.exists_eq_succ_of_ne_zero (fun h => hne (List.length_eq_zero.mp h))
  rw [Nat.succ_eq_add_one] at hm
  rw [hm, descLens, List.findSome?_cons]
  have hdrop : (s ++ '/' :: rest).drop (m + 1) = '/' :: rest := by
    rw [← hm]; exact List.drop_left s _
  have htake : (s ++ '/' :: rest).take (m + 1) = s := by
    rw [← hm]; exact List.take_left s _
  rw [hdrop, htake, matchToks_lit_cons, if_pos rfl]
  have htail : ∀ n ∈ descLens m,
      (matchToks (.lit '/' :: ts) ((s ++ '/' :: rest).drop n)).map
        (fun caps => (s ++ '/' :: rest).take n :: caps) = none := by
    intro n hn
    rw [mem_descLens] at hn
    have hlt : n < s.length := by omega
    have hdropn : (s ++ '/' :: rest).drop n = s.drop n ++ '/' :: rest := by
      rw [List.drop_append_eq_append_drop, Nat.sub_eq_zero_of_le (le_of_lt hlt)]
      rfl
    have hdne : s.drop n ≠ [] := by
      intro hempty
      have := List.length_drop n s ▸ congrArg List.length hempty
      simp at this
      omega
    obtain ⟨d, t, hdt⟩ := List.exists_cons_of_ne_nil hdne
    have hd : capOk d := hok d (List.mem_of_mem_drop (hdt ▸ List.mem_cons_self d t))
    rw [hdropn, hdt, List.cons_append, matchToks_lit_cons,
      if_neg (fun h => capOk_ne_slash hd h.symm)]
    rfl
  cases hr : matchToks ts rest with
  | some caps => simp
  | none => simp only [Option.map_none']; exact List.findSome?_eq_none_iff.mpr htail

theorem scanCore_zero (tpl : List Char) : scanCore 0 tpl = ([], []) := rfl

theorem scanCore_nil (f : Nat) : scanCore f [] = ([], []) := by
  cases f <;> rfl

theorem scanCore_word {c : Char} (h : isWordChar c) (f : Nat) (rest : List Char) :
    scanCore (f + 1) ('/' :: ':' :: c :: rest) =
      (Tok.lit '/' :: Tok.capture :: (scanCore f ((c :: rest).dropWhile isWordChar)).1,
        String.mk ((c :: rest).takeWhile isWordChar) ::
          (scanCore f ((c :: rest).dropWhile isWordChar)).2) := by
  simp [scanCore, h]

theorem scanCore_nonword {c : Char} (h : ¬ isWordChar c) (f : Nat) (rest : List Char) :
    scanCore (f + 1) ('/' :: ':' :: c :: rest) =
      (Tok.lit '/' :: (scanCore f (':' :: c :: rest)).1, (scanCore f (':' :: c :: rest)).2) := by
  simp [scanCore, h]

theorem scanCore_generic {c1 : Char} {rest1 : List Char} (f : Nat)
    (h : ∀ c2 rest2, c1 = '/' → rest1 = ':' :: c2 :: rest2 → False) :
    scanCore (f + 1) (c1 :: rest1) =
      (Tok.lit c1 :: (scanCore f rest1).1, (scanCore f rest1).2) := by
  rw [scanCore.eq_def]
  split
  · omega
  · simp_all
  · rename_i a b c d e
    injection e with e1 e2
    exact (h b c e1 e2).elim
  · rename_i fl a b c d e
    injection e with e1 e2
    have ha : fl = f := by omega
    subst ha e1 e2
    rfl

theorem scanCore_single (f : Nat) (c : Char) :
    scanCore (f + 1) [c] = ([Tok.lit c], []) := by
  rw [scanCore_generic f (by intro c2 rest2 _ hr; cases hr), scanCore_nil]

theorem scanCore_not_slash {c1 : Char} (h : c1 ≠ '/') (f : Nat) (rest : List Char) :
    scanCore (f + 1) (c1 :: rest) =
      (Tok.lit c1 :: (scanCore f rest).1, (scanCore f rest).2) :=
  scanCore_generic f (fun _ _ hc _ => h hc)

theorem scanCore_not_colon {c2 : Char} (h : c2 ≠ ':') (f : Nat) (c1 : Char) (rest : List Char) :
    scanCore (f + 1) (c1 :: c2 :: rest) =
      (Tok.lit c1 :: (scanCore f (c2 :: rest)).1, (scanCore f (c2 :: rest)).2) :=
  scanCore_generic f (fun _ _ _ hr => h (by injection hr))

theorem scan_captures :
    ∀ (f : Nat) (tpl : List Char),
      countCaptures (scanCore f tpl).1 = (scanCore f tpl).2.length := by
  intro f
  induction f with
  | zero => intro tpl; rfl
  | succ f ih =>
    intro tpl
    cases tpl with
    | nil => rw [scanCore_nil]; rfl
    | cons c1 rest1 =>
      by_cases h1 : c1 = '/'
      · subst h1
        cases rest1 with
        | nil => rw [scanCore_single]; rfl
        | cons c2 rest2 =>
          by_cases h2 : c2 = ':'
          · subst h2
            cases rest2 with
            | nil =>
              rw [scanCore_generic f (by intro a b _ hr; injection hr with _ hr2; cases hr2)]
              simp [countCaptures, ih]
            | cons c3 rest3 =>
              by_cases h3 : isWordChar c3
              · rw [scanCore_word h3]
                simp [countCaptures, ih]
              · rw [scanCore_nonword h3]
                simp [countCaptures, ih]
          · rw [scanCore_not_colon h2]
            simp [countCaptures, ih]
      · rw [scanCore_not_slash h1]
        simp [countCaptures, ih]

theorem normCore_zero (tpl : List Char) (ps : List (String × ParamDecl)) :
    normCore 0 tpl ps = .ok ([], [], ps) := rfl

theorem normCore_nil (f : Nat) (ps : List (String × ParamDecl)) :
    normCore f [] ps = .ok ([], [], ps) := by
  cases f <;> rfl

theorem normCore_generic {c1 : Char} {rest1 : List Char} (f : Nat)
    (ps : List (String × ParamDecl))
    (h : ∀ c2 rest2, c1 = '/' → rest1 = ':' :: c2 :: rest2 → False) :
    normCore (f + 1) (c1 :: rest1) ps =
      match normCore f rest1 ps with
      | .error e => .error e
      | .ok (ts, ks, ps') => .ok (Tok.lit c1 :: ts, ks, ps') := by
  rw [normCore.eq_def]
  split
  · omega
  · simp_all
  · rename_i a b c d e
    injection e with e1 e2
    exact (h b c e1 e2).elim
  · rename_i fl a b c d e
    injection e with e1 e2
    have ha : fl = f := by omega
    subst ha e1 e2
    rfl

theorem normCore_word {c : Char} (h : isWordChar c) (f : Nat) (rest : List Char)
    (ps : List (String × ParamDecl)) :
    normCore (f + 1) ('/' :: ':' :: c :: rest) ps =
      (if srcFalsy (urlDecl ps (String.mk ((c :: rest).takeWhile isWordChar))).source? ∨
          (urlDecl ps (String.mk ((c :: rest).takeWhile isWordChar))).source? = some "url" then
        match normCore f ((c :: rest).dropWhile isWordChar)
            (upsert ps (String.mk ((c :: rest).takeWhile isWordChar))
              { urlDecl ps (String.mk ((c :: rest).takeWhile isWordChar)) with
                source? := some "url" }) with
        | .error e => .error e
        | .ok (ts, ks, ps') =>
          .ok (Tok.lit '/' :: Tok.capture :: ts,
            String.mk ((c :: rest).takeWhile isWordChar) :: ks, ps')
      else
        .error (.conflictingSource
          (((urlDecl ps (String.mk ((c :: rest).takeWhile isWordChar))).source?).getD ""))) := by
  simp [normCore, h]

theorem normCore_nonword {c : Char} (h : ¬ isWordChar c) (f : Nat) (rest : List Char)
    (ps : List (String × ParamDecl)) :
    normCore (f + 1) ('/' :: ':' :: c :: rest) ps =
      match normCore f (':' :: c :: rest) ps with
      | .error e => .error e
      | .ok (ts, ks, ps') => .ok (Tok.lit '/' :: ts, ks, ps') := by
  simp [normCore, h]

theorem normCore_scanCore :
    ∀ (f : Nat) (tpl : List Char) (ps : List (String × ParamDecl))
      (ts : List Tok) (ks : List String) (ps' : List (String × ParamDecl)),
      normCore f tpl ps = .ok (ts, ks, ps') →
      ts = (scanCore f tpl).1 ∧ ks = (scanCore f tpl).2 := by
  intro f
  induction f with
  | zero =>
    intro tpl ps ts ks ps' h
    rw [normCore_zero] at h
    simp only [Except.ok.injEq, Prod.mk.injEq] at h
    exact ⟨h.1.symm, h.2.1.symm⟩
  | succ f ih =>
    intro tpl ps ts ks ps' h
    cases tpl with
    | nil =>
      rw [normCore_nil] at h
      simp only [Except.ok.injEq, Prod.mk.injEq] at h
      rw [scanCore_nil]
      exact ⟨h.1.symm, h.2.1.symm⟩
    | cons c1 rest1 =>
      by_cases h1 : c1 = '/'
      · subst h1
        cases rest1 with
        | nil =>
          have hno : ∀ (c2 : Char) (rest2 : List Char),
              '/' = '/' → ([] : List Char) = ':' :: c2 :: rest2 → False := by
            intro a b _ hr; cases hr
          rw [normCore_generic f ps hno] at h
          rw [normCore_nil] at h
          simp only [Except.ok.injEq, Prod.mk.injEq] at h
          rw [scanCore_single]
          exact ⟨h.1.symm, h.2.1.symm⟩
        | cons c2 rest2 =>
          by_cases h2 : c2 = ':'
          · subst h2
            cases rest2 with
            | nil =>
              have hno : ∀ (c2 : Char) (rest2 : List Char),
                  '/' = '/' → ([':'] : List Char) = ':' :: c2 :: rest2 → False := by
                intro a b _ hr; injection hr with _ hr2; cases hr2
              rw [normCore_generic f ps hno] at h
              rw [scanCore_generic f hno]
              cases hrec : normCore f [':'] ps with
              | error e => rw [hrec] at h; cases h
              | ok out =>
                obtain ⟨ts0, ks0, ps0⟩ := out
                rw [hrec] at h
                simp only [Except.ok.injEq, Prod.mk.injEq] at h
                obtain ⟨hts, hks, _⟩ := h
                obtain ⟨ih1, ih2⟩ := ih [':'] ps ts0 ks0 ps0 hrec
                constructor
                · rw [← hts, ih1]
                · rw [← hks, ih2]
            | cons c3 rest3 =>
              by_cases h3 : isWordChar c3
              · rw [normCore_word h3] at h
                rw [scanCore_word h3]
                split at h
                · cases hrec : normCore f ((c3 :: rest3).dropWhile isWordChar)
                      (upsert ps (String.mk ((c3 :: rest3).takeWhile isWordChar))
                        { urlDecl ps (String.mk ((c3 :: rest3).takeWhile isWordChar)) with
                          source? := some "url" }) with
                  | error e => rw [hrec] at h; cases h
                  | ok out =>
                    obtain ⟨ts0, ks0, ps0⟩ := out
                    rw [hrec] at h
                    simp only [Except.ok.injEq, Prod.mk.injEq] at h
                    obtain ⟨hts, hks, _⟩ := h
                    obtain ⟨ih1, ih2⟩ := ih _ _ _ _ _ hrec
                    constructor
                    · rw [← hts, ih1]
                    · rw [← hks, ih2]
                · cases h
              · rw [normCore_nonword h3] at h
                rw [scanCore_nonword h3]
                cases hrec : normCore f (':' :: c3 :: rest3) ps with
                | error e => rw [hrec] at h; cases h
                | ok out =>
                  obtain ⟨ts0, ks0, ps0⟩ := out
                  rw [hrec] at h
                  simp only [Except.ok.injEq, Prod.mk.injEq] at h
                  obtain ⟨hts, hks, _⟩ := h
                  obtain ⟨ih1, ih2⟩ := ih _ _ _ _ _ hrec
                  constructor
                  · rw [← hts, ih1]
                  · rw [← hks, ih2]
          · have hno : ∀ (ca : Char) (rb : List Char),
                '/' = '/' → c2 :: rest2 = ':' :: ca :: rb → False := by
              intro a b _ hr; injection hr with hr1 _; exact h2 hr1
            rw [normCore_generic f ps hno] at h
            rw [scanCore_generic f hno]
            cases hrec : normCore f (c2 :: rest2) ps with
            | error e => rw [hrec] at h; cases h
            | ok out =>
              obtain ⟨ts0, ks0, ps0⟩ := out
              rw [hrec] at h
              simp only [Except.ok.injEq, Prod.mk.injEq] at h
              obtain ⟨hts, hks, _⟩ := h
              obtain ⟨ih1, ih2⟩ := ih _ _ _ _ _ hrec
              constructor
              · rw [← hts, ih1]
              · rw [← hks, ih2]
      · have hno : ∀ (ca : Char) (rb : List Char),
            c1 = '/' → rest1 = ':' :: ca :: rb → False := fun _ _ hc _ => h1 hc
        rw [normCore_generic f ps hno] at h
        rw [scanCore_generic f hno]
        cases hrec : normCore f rest1 ps with
        | error e => rw [hrec] at h; cases h
        | ok out =>
          obtain ⟨ts0, ks0, ps0⟩ := out
          rw [hrec] at h
          simp only [Except.ok.injEq, Prod.mk.injEq] at h
          obtain ⟨hts, hks, _⟩ := h
          obtain ⟨ih1, ih2⟩ := ih _ _ _ _ _ hrec
          constructor
          · rw [← hts, ih1]
          · rw [← hks, ih2]

theorem lookup_upsert_ne {β : Type} (l : List (String × β)) (w k : String) (v : β)
    (h : k ≠ w) : (upsert l w v).lookup k = l.lookup k := by
  induction l with
  | nil =>
    simp [upsert, List.lookup, beq_false_of_ne h]
  | cons p t ih =>
    obtain ⟨k', v'⟩ := p
    simp only [upsert]
    by_cases hk : k' = w
    · rw [if_pos hk]
      subst hk
      simp [List.lookup, beq_false_of_ne h]
    · rw [if_neg hk]
      simp [List.lookup, ih]

theorem normCore_conflict :
    ∀ (f : Nat) (tpl : List Char) (ps : List (String × ParamDecl)) (nm : String)
      (d : ParamDecl) (s : String),
      ps.lookup nm = some d → d.source? = some s → s ≠ "" → s ≠ "url" →
      nm ∈ (scanCore f tpl).2 →
      ∃ msg, normCore f tpl ps = .error (.conflictingSource msg) := by
  intro f
  induction f with
  | zero =>
    intro tpl ps nm d s _ _ _ _ hmem
    rw [scanCore_zero] at hmem
    exact absurd hmem (List.not_mem_nil nm)
  | succ f ih =>
    intro tpl ps nm d s hlk hsrc hs1 hs2 hmem
    cases tpl with
    | nil =>
      rw [scanCore_nil] at hmem
      exact absurd hmem (List.not_mem_nil nm)
    | cons c1 rest1 =>
      by_cases h1 : c1 = '/'
      · subst h1
        cases rest1 with
        | nil =>
          rw [scanCore_single] at hmem
          exact absurd hmem (List.not_mem_nil nm)
        | cons c2 rest2 =>
          by_cases h2 : c2 = ':'
          · subst h2
            cases rest2 with
            | nil =>
              have hno : ∀ (ca : Char) (rb : List Char),
                  '/' = '/' → ([':'] : List Char) = ':' :: ca :: rb → False := by
                intro a b _ hr; injection hr with _ hr2; cases hr2
              rw [scanCore_generic f hno] at hmem
              replace hmem : nm ∈ (scanCore f [':']).2 := hmem
              have hkeys : (scanCore f [':']).2 = [] := by
                cases f with
                | zero => rfl
                | succ f' => rw [scanCore_single]
              rw [hkeys] at hmem
              exact absurd hmem (List.not_mem_nil nm)
            | cons c3 rest3 =>
              by_cases h3 : isWordChar c3
              · rw [scanCore_word h3] at hmem
                rw [normCore_word h3]
                by_cases hnw : nm = String.mk ((c3 :: rest3).takeWhile isWordChar)
                · have hud : (urlDecl ps (String.mk ((c3 :: rest3).takeWhile isWordChar))).source?
                      = some s := by
                    rw [← hnw]
                    simp [urlDecl, hlk, hsrc]
                  rw [hud, if_neg (by simp [srcFalsy, hs1, hs2])]
                  exact ⟨s, rfl⟩
                · have hmem' : nm ∈ (scanCore f ((c3 :: rest3).dropWhile isWordChar)).2 := by
                    rcases List.mem_cons.mp hmem with he | hm
                    · exact absurd he hnw
                    · exact hm
                  split
                  · have hlk2 : (upsert ps (String.mk ((c3 :: rest3).takeWhile isWordChar))
                        { urlDecl ps (String.mk ((c3 :: rest3).takeWhile isWordChar)) with
                          source? := some "url" }).lookup nm = some d := by
                      rw [lookup_upsert_ne _ _ _ _ hnw]
                      exact hlk
                    obtain ⟨msg, hmsg⟩ := ih _ _ nm d s hlk2 hsrc hs1 hs2 hmem'
                    rw [hmsg]
                    exact ⟨msg, rfl⟩
                  · exact ⟨_, rfl⟩
              · rw [scanCore_nonword h3] at hmem
                rw [normCore_nonword h3]
                obtain ⟨msg, hmsg⟩ := ih _ _ nm d s hlk hsrc hs1 hs2 hmem
                rw [hmsg]
                exact ⟨msg, rfl⟩
          · have hno : ∀ (ca : Char) (rb : List Char),
                '/' = '/' → c2 :: rest2 = ':' :: ca :: rb → False := by
              intro a b _ hr; injection hr with hr1 _; exact h2 hr1
            rw [scanCore_generic f hno] at hmem
            rw [normCore_generic f ps hno]
            obtain ⟨msg, hmsg⟩ := ih _ _ nm d s hlk hsrc hs1 hs2 hmem
            rw [hmsg]
            exact ⟨msg, rfl⟩
      · have hno : ∀ (ca : Char) (rb : List Char),
            c1 = '/' → rest1 = ':' :: ca :: rb → False := fun _ _ hc _ => h1 hc
        rw [scanCore_generic f hno] at hmem
        rw [normCore_generic f ps hno]
        obtain ⟨msg, hmsg⟩ := ih _ _ nm d s hlk hsrc hs1 hs2 hmem
        rw [hmsg]
        exact ⟨msg, rfl⟩

theorem bindCaps_false :
    ∀ (params : List (String × Param)) (ks : List String) (caps : List (List Char))
      (acc st' : List (String × Value)),
      bindCaps params ks caps acc = .ok (false, st') → st' = [] := by
  intro params ks
  induction ks with
  | nil =>
    intro caps acc st' h
    simp only [bindCaps, Except.ok.injEq, Prod.mk.injEq] at h
    exact absurd h.1 (by simp)
  | cons k ks ih =>
    intro caps acc st' h
    cases hlk : params.lookup k with
    | none =>
      simp only [bindCaps, hlk] at h
      exact Except.noConfusion h
    | some p =>
      simp only [bindCaps, hlk] at h
      cases hp : p.type.parse (capVal caps) with
      | error e =>
        simp only [hp, Except.ok.injEq, Prod.mk.injEq] at h
        exact h.2.symm
      | ok v =>
        simp only [hp] at h
        cases hc : p.type.check v with
        | error e =>
          simp only [hc] at h
          exact Except.noConfusion h
        | ok b =>
          simp only [hc] at h
          cases b with
          | true => simp only [if_true] at h; exact ih _ _ _ h
          | false =>
            simp only [Bool.false_eq_true, if_false, Except.ok.injEq, Prod.mk.injEq] at h
            exact h.2.symm

theorem collectParams_errs_aux :
    ∀ (ps : List (String × Param)) (res : String) (body : List (String × Value))
      (query : List (String × String)) (urlp : List (String × Value))
      (errs0 : List Violation) (binds0 : List (String × Value))
      (errs : List Violation) (binds : List (String × Value)),
      collectParams res body query urlp ps errs0 binds0 = .ok (errs, binds) →
      errs = errs0 ++ ps.filterMap (fun kp => violationOf res kp.1 kp.2 body query urlp) := by
  intro ps
  induction ps with
  | nil =>
    intro res body query urlp errs0 binds0 errs binds h
    simp only [collectParams, Except.ok.injEq, Prod.mk.injEq] at h
    simp [← h.1]
  | cons kp rest ih =>
    intro res body query urlp errs0 binds0 errs binds h
    obtain ⟨k, p⟩ := kp
    simp only [collectParams] at h
    cases hdec : decodeOne res k p body query urlp with
    | error e => rw [hdec] at h; cases h
    | ok out =>
      obtain ⟨vio?, val?⟩ := out
      rw [hdec] at h
      have := ih res body query urlp (errs0 ++ vio?.toList) _ errs binds h
      rw [this, List.filterMap_cons]
      cases vio? with
      | none =>
        simp [violationOf, hdec]
      | some v =>
        simp [violationOf, hdec]

theorem decodeOne_shape {res k : String} {p : Param} {body : List (String × Value)}
    {query : List (String × String)} {urlp : List (String × Value)}
    {v : Violation} {w : Option Value}
    (h : decodeOne res k p body query urlp = .ok (some v, w)) :
    v.resource = res ∧ v.field = k ∧
      ((v.code = "missing_field" ∧ v.source = some p.source ∧ v.type_expected = none) ∨
       (v.code = "invalid" ∧ v.source = none ∧ v.type_expected = some p.type.name)) := by
  simp only [decodeOne] at h
  split at h
  · simp only [Except.ok.injEq, Prod.mk.injEq, Option.some.injEq] at h
    rw [← h.1]
    exact ⟨rfl, rfl, Or.inl ⟨rfl, rfl, rfl⟩⟩
  · split at h
    · split at h
      · cases h
      · cases hc : p.type.check ((body.lookup k).getD .undef) with
        | error e =>
          simp only [hc] at h
          exact Except.noConfusion h
        | ok b =>
          simp only [hc] at h
          cases b with
          | true => simp at h
          | false =>
            simp only [Bool.false_eq_true, if_false, Except.ok.injEq, Prod.mk.injEq,
              Option.some.injEq] at h
            rw [← h.1]
            exact ⟨rfl, rfl, Or.inr ⟨rfl, rfl, rfl⟩⟩
    · split at h
      · split at h
        · cases h
        · cases hp : p.type.parse (queryVal (query.lookup k)) with
          | error e =>
            simp only [hp, Except.ok.injEq, Prod.mk.injEq, Option.some.injEq] at h
            rw [← h.1]
            exact ⟨rfl, rfl, Or.inr ⟨rfl, rfl, rfl⟩⟩
          | ok pv =>
            simp only [hp] at h
            cases hc : p.type.check pv with
            | error e =>
              simp only [hc] at h
              exact Except.noConfusion h
            | ok b =>
              simp only [hc] at h
              cases b with
              | true => simp at h
              | false =>
                simp only [Bool.false_eq_true, if_false, Except.ok.injEq, Prod.mk.injEq,
                  Option.some.injEq] at h
                rw [← h.1]
                exact ⟨rfl, rfl, Or.inr ⟨rfl, rfl, rfl⟩⟩
      · split at h
        · split at h
          · cases h
          · simp at h
        · cases h

theorem lookup_map_wrap (l : List (String × ParamIn)) (nm : String) :
    (l.map (fun kp => (kp.1, wrapBare kp.2))).lookup nm = (l.lookup nm).map wrapBare := by
  induction l with
  | nil => rfl
  | cons kp t ih =>
    obtain ⟨k, pin⟩ := kp
    simp only [List.map_cons, List.lookup]
    cases hbeq : nm == k with
    | true => rfl
    | false => exact ih

theorem replaceCore_zero (tpl : List Char) : replaceCore 0 tpl = [] := rfl

theorem replaceCore_nil (f : Nat) : replaceCore f [] = [] := by
  cases f <;> rfl

theorem replaceCore_generic {c1 : Char} {rest1 : List Char} (f : Nat)
    (h : ∀ c2 rest2, c1 = '/' → rest1 = ':' :: c2 :: rest2 → False) :
    replaceCore (f + 1) (c1 :: rest1) = c1 :: replaceCore f rest1 := by
  rw [replaceCore.eq_def]
  split
  · omega
  · simp_all
  · rename_i a b c d e
    injection e with e1 e2
    exact (h b c e1 e2).elim
  · rename_i fl a b c d e
    injection e with e1 e2
    have ha : fl = f := by omega
    subst ha e1 e2
    rfl

theorem replaceCore_word {c : Char} (h : isWordChar c) (f : Nat) (rest : List Char) :
    replaceCore (f + 1) ('/' :: ':' :: c :: rest) =
      '/' :: '(' :: '[' :: '^' :: '\\' :: '/' :: ']' :: '+' :: ')' ::
        replaceCore f ((c :: rest).dropWhile isWordChar) := by
  simp [replaceCore, h]

theorem replaceCore_nonword {c : Char} (h : ¬ isWordChar c) (f : Nat) (rest : List Char) :
    replaceCore (f + 1) ('/' :: ':' :: c :: rest) =
      '/' :: replaceCore f (':' :: c :: rest) := by
  simp [replaceCore, h]

theorem replaceCore_single (f : Nat) (c : Char) :
    replaceCore (f + 1) [c] = [c] := by
  rw [replaceCore_generic f (by intro a b _ hr; cases hr), replaceCore_nil]

theorem escapeSlashDot_cons (c : Char) (rest : List Char) :
    escapeSlashDot (c :: rest) =
      (if c = '/' ∨ c = '.' then ['\\', c] else [c]) ++ escapeSlashDot rest := by
  by_cases h : c = '/' ∨ c = '.' <;> simp [escapeSlashDot, h]

/-- The source's regex string and the token rendering agree: the second
replace pass over the first pass's output reads back exactly the compiled
token list. -/
theorem escape_replace_renderToks :
    ∀ (f : Nat) (tpl : List Char),
      escapeSlashDot (replaceCore f tpl) = renderToks (scanCore f tpl).1 := by
  intro f
  induction f with
  | zero => intro tpl; rfl
  | succ f ih =>
    intro tpl
    cases tpl with
    | nil => rw [replaceCore_nil, scanCore_nil]; rfl
    | cons c1 rest1 =>
      by_cases h1 : c1 = '/'
      · subst h1
        cases rest1 with
        | nil =>
          rw [replaceCore_single, scanCore_single]
          rfl
        | cons c2 rest2 =>
          by_cases h2 : c2 = ':'
          · subst h2
            cases rest2 with
            | nil =>
              have hno : ∀ (ca : Char) (rb : List Char),
                  '/' = '/' → ([':'] : List Char) = ':' :: ca :: rb → False := by
                intro a b _ hr; injection hr with _ hr2; cases hr2
              rw [replaceCore_generic f hno, scanCore_generic f hno,
                escapeSlashDot_cons, ih]
              rfl
            | cons c3 rest3 =>
              by_cases h3 : isWordChar c3
              · rw [replaceCore_word h3, scanCore_word h3]
                show '\\' :: '/' :: '(' :: '[' :: '^' :: '\\' :: '\\' :: '/' :: ']' ::
                    '+' :: ')' ::
                    escapeSlashDot (replaceCore f ((c3 :: rest3).dropWhile isWordChar)) =
                  renderToks (Tok.lit '/' :: Tok.capture ::
                    (scanCore f ((c3 :: rest3).dropWhile isWordChar)).1)
                rw [ih]
                rfl
              · rw [replaceCore_nonword h3, scanCore_nonword h3,
                  escapeSlashDot_cons, ih]
                rfl
          · have hno : ∀ (ca : Char) (rb : List Char),
                '/' = '/' → c2 :: rest2 = ':' :: ca :: rb → False := by
              intro a b _ hr; injection hr with hr1 _; exact h2 hr1
            rw [replaceCore_generic f hno, scanCore_generic f hno,
              escapeSlashDot_cons, ih]
            rfl
      · have hno : ∀ (ca : Char) (rb : List Char),
            c1 = '/' → rest1 = ':' :: ca :: rb → False := fun _ _ hc _ => h1 hc
        rw [replaceCore_generic f hno, scanCore_generic f hno,
          escapeSlashDot_cons, ih]
        rfl

/-- `compileRe` is the anchored rendering of the compiled token list —
for every template, with no safety assumption: the token list carries the
full pattern text, only its `matchToks` semantics needs `metaFree`. -/
theorem compileRe_renderToks (tpl : List Char) :
    compileRe tpl = '^' :: renderToks (scanTpl tpl).1 ++ ['$'] := by
  unfold compileRe replaceTpl scanTpl
  rw [escape_replace_renderToks]

theorem groupCountAux_plain {c : Char} (h1 : c ≠ '\\') (h2 : c ≠ '(')
    (l : List Char) : groupCountAux false (c :: l) = groupCountAux false l := by
  simp [groupCountAux, h1, h2]

theorem groupCountAux_esc {c : Char} (h1 : c ≠ '\\') (l : List Char) :
    groupCountAux false ('\\' :: c :: l) = groupCountAux false l := by
  simp [groupCountAux, h1]

theorem groupCountAux_cap (l : List Char) :
    groupCountAux false
      ('(' :: '[' :: '^' :: '\\' :: '\\' :: '/' :: ']' :: '+' :: ')' :: l) =
      1 + groupCountAux false l := by
  simp [groupCountAux]

theorem groupCountAux_renderToks :
    ∀ (toks : List Tok), (∀ t ∈ toks, tokSafe t) →
      ∀ tail : List Char,
        groupCountAux false (renderToks toks ++ tail) =
          countCaptures toks + groupCountAux false tail := by
  intro toks
  induction toks with
  | nil => intro _ tail; simp [renderToks, countCaptures]
  | cons t ts ih =>
    intro hsafe tail
    have hts : ∀ t ∈ ts, tokSafe t := fun t ht => hsafe t (List.mem_cons_of_mem _ ht)
    have hhd : tokSafe t := hsafe t (List.mem_cons_self _ _)
    rw [show renderToks (t :: ts) = renderTok t ++ renderToks ts from rfl,
      List.append_assoc]
    cases t with
    | capture =>
      rw [show renderTok Tok.capture ++ (renderToks ts ++ tail) =
        '(' :: '[' :: '^' :: '\\' :: '\\' :: '/' :: ']' :: '+' :: ')' ::
          (renderToks ts ++ tail) from rfl]
      rw [groupCountAux_cap, ih hts tail]
      show 1 + (countCaptures ts + groupCountAux false tail) =
        countCaptures ts + 1 + groupCountAux false tail
      omega
    | lit c =>
      have hc : metaFree c := hhd
      have hcp : c ≠ '(' := by
        intro h; rw [h] at hc; simp [metaFree] at hc
      have hcb : c ≠ '\\' := by
        intro h; rw [h] at hc; simp [metaFree] at hc
      by_cases hesc : c = '/' ∨ c = '.'
      · rw [show renderTok (Tok.lit c) = ['\\', c] from by simp [renderTok, hesc]]
        rw [show (['\\', c] : List Char) ++ (renderToks ts ++ tail) =
          '\\' :: c :: (renderToks ts ++ tail) from rfl]
        rw [groupCountAux_esc hcb, ih hts tail]
        rfl
      · rw [show renderTok (Tok.lit c) = [c] from by simp [renderTok, hesc]]
        rw [show ([c] : List Char) ++ (renderToks ts ++ tail) =
          c :: (renderToks ts ++ tail) from rfl]
        rw [groupCountAux_plain hcb hcp, ih hts tail]
        rfl

theorem mem_of_mem_dropWhile {p : Char → Bool} {l : List Char} {x : Char}
    (h : x ∈ l.dropWhile p) : x ∈ l := by
  induction l with
  | nil => simp at h
  | cons a t ih =>
    rw [List.dropWhile_cons] at h
    split at h
    · exact List.mem_cons_of_mem a (ih h)
    · exact h

theorem scanCore_toks_safe :
    ∀ (f : Nat) (tpl : List Char), (∀ c ∈ tpl, metaFree c) →
      ∀ t ∈ (scanCore f tpl).1, tokSafe t := by
  intro f
  induction f with
  | zero => intro tpl _ t ht; simp [scanCore_zero] at ht
  | succ f ih =>
    intro tpl hsafe t ht
    cases tpl with
    | nil => rw [scanCore_nil] at ht; simp at ht
    | cons c1 rest1 =>
      by_cases h1 : c1 = '/'
      · subst h1
        cases rest1 with
        | nil =>
          rw [scanCore_single] at ht
          simp only [List.mem_singleton] at ht
          subst ht
          decide
        | cons c2 rest2 =>
          by_cases h2 : c2 = ':'
          · subst h2
            cases rest2 with
            | nil =>
              have hno : ∀ (ca : Char) (rb : List Char),
                  '/' = '/' → ([':'] : List Char) = ':' :: ca :: rb → False := by
                intro a b _ hr; injection hr with _ hr2; cases hr2
              rw [scanCore_generic f hno] at ht
              replace ht : t ∈ Tok.lit '/' :: (scanCore f [':']).1 := ht
              rcases List.mem_cons.mp ht with he | hm
              · subst he; decide
              · exact ih [':'] (by intro c hc; simp at hc; subst hc; decide) t hm
            | cons c3 rest3 =>
              by_cases h3 : isWordChar c3
              · rw [scanCore_word h3] at ht
                replace ht : t ∈ Tok.lit '/' :: Tok.capture ::
                    (scanCore f ((c3 :: rest3).dropWhile isWordChar)).1 := ht
                rcases List.mem_cons.mp ht with he | ht2
                · subst he; decide
                · rcases List.mem_cons.mp ht2 with he | hm
                  · subst he; decide
                  · refine ih _ ?_ t hm
                    intro c hc
                    exact hsafe c (by
                      have := mem_of_mem_dropWhile hc
                      simp only [List.mem_cons] at this ⊢
                      tauto)
              · rw [scanCore_nonword h3] at ht
                replace ht : t ∈ Tok.lit '/' ::
                    (scanCore f (':' :: c3 :: rest3)).1 := ht
                rcases List.mem_cons.mp ht with he | hm
                · subst he; decide
                · refine ih _ ?_ t hm
                  intro c hc
                  exact hsafe c (by simp only [List.mem_cons] at hc ⊢; tauto)
          · have hno : ∀ (ca : Char) (rb : List Char),
                '/' = '/' → c2 :: rest2 = ':' :: ca :: rb → False := by
              intro a b _ hr; injection hr with hr1 _; exact h2 hr1
            rw [scanCore_generic f hno] at ht
            replace ht : t ∈ Tok.lit '/' :: (scanCore f (c2 :: rest2)).1 := ht
            rcases List.mem_cons.mp ht with he | hm
            · subst he; decide
            · refine ih _ ?_ t hm
              intro c hc
              exact hsafe c (List.mem_cons_of_mem _ hc)
      · have hno : ∀ (ca : Char) (rb : List Char),
            c1 = '/' → rest1 = ':' :: ca :: rb → False := fun _ _ hc _ => h1 hc
        rw [scanCore_generic f hno] at ht
        replace ht : t ∈ Tok.lit c1 :: (scanCore f rest1).1 := ht
        rcases List.mem_cons.mp ht with he | hm
        · subst he
          exact hsafe c1 (List.mem_cons_self _ _)
        · refine ih _ ?_ t hm
          intro c hc
          exact hsafe c (List.mem_cons_of_mem _ hc)

/-- Capturing-group count of the compiled regex string, for templates
whose compiled tokens are all safe: exactly the scan-inserted captures. -/
theorem groupCount_compileRe (tpl : List Char) (hsafe : ∀ c ∈ tpl, metaFree c) :
    groupCount (compileRe tpl) = countCaptures (scanTpl tpl).1 := by
  rw [compileRe_renderToks]
  unfold groupCount
  show groupCountAux false ('^' :: (renderToks (scanTpl tpl).1 ++ ['$'])) = _
  simp only [groupCountAux]
  rw [if_neg (by decide), if_neg (by simp)]
  rw [groupCountAux_renderToks (scanTpl tpl).1
    (scanCore_toks_safe (tpl.length + 1) tpl hsafe) ['$']]
  simp [groupCountAux]

/-!
The claims.
-/

/-- Claim C1 counterexample: after a successful match filled `lastMatch`,
a later call whose path fails the anchored pattern returns `false` yet
leaves the previous bindings in place — the state is not empty. -/
theorem C1_match_state_counterexample :
    routeMatch usersRoute [] "/users/42" = .ok (true, [("id", Value.vStr "42")]) ∧
    routeMatch usersRoute [("id", Value.vStr "42")] "/nope" =
      .ok (false, [("id", Value.vStr "42")]) ∧
    [("id", Value.vStr "42")] ≠ ([] : List (String × Value)) :=
  ⟨rfl, rfl, by decide⟩

/-- Claim C1 (amended): when `match` returns `false` because a captured
segment's parse threw or its check returned `false`, `lastMatch` is empty
afterwards; but when the anchored pattern itself does not match,
`lastMatch` is left unchanged, so stale bindings remain observable. -/
theorem C1_match_state (R : RouteSpec) (st st' : List (String × Value)) (path : String)
    (h : routeMatch R st path = .ok (false, st')) :
    (matchToks R.toks path.data = none ∧ st' = st) ∨
      (matchToks R.toks path.data ≠ none ∧ st' = []) := by
  unfold routeMatch at h
  cases hm : matchToks R.toks path.data with
  | none =>
    rw [hm] at h
    simp only [Except.ok.injEq, Prod.mk.injEq] at h
    exact Or.inl ⟨rfl, h.2.symm⟩
  | some caps =>
    rw [hm] at h
    exact Or.inr ⟨by simp, bindCaps_false _ _ _ _ _ h⟩

/-- Claim C1 witness: the amended statement at a concrete no-match call. -/
theorem C1_match_state_witness :
    (matchToks usersRoute.toks "/x".data = none ∧
      [("a", Value.undef)] = [("a", Value.undef)]) ∨
    (matchToks usersRoute.toks "/x".data ≠ none ∧
      ([("a", Value.undef)] : List (String × Value)) = []) :=
  C1_match_state usersRoute [("a", Value.undef)] [("a", Value.undef)] "/x" rfl

/-- Claim C2 counterexample: `/users/4` is a strict prefix of the matching
path `/users/42`, yet it also matches template `/users/:id`; so "any path
that is a strict prefix of a matching path is rejected" fails. -/
theorem C2_anchored_counterexample :
    routeMatch usersRoute [] "/users/42" = .ok (true, [("id", Value.vStr "42")]) ∧
    "/users/4" ++ "2" = "/users/42" ∧ "/users/4" ≠ "/users/42" ∧
    routeMatch usersRoute [] "/users/4" = .ok (true, [("id", Value.vStr "4")]) :=
  ⟨rfl, by decide, by decide, rfl⟩

/-- Claim C9: with template `/:id/x/:id`, a successful match parses and
checks both captures (a failing check on either occurrence fails the
whole match) but binds `id` to the value of the last occurrence. -/
theorem C9_duplicate_keys :
    (∀ s1 s2 : List Char, s1 ≠ [] → s2 ≠ [] →
      (∀ c ∈ s1, capOk c) → (∀ c ∈ s2, capOk c) →
      routeMatch dupRoute [] (String.mk ('/' :: (s1 ++ '/' :: 'x' :: '/' :: s2))) =
        .ok (true, [("id", Value.vStr (String.mk s2))])) ∧
    routeMatch zRoute [] "/z/x/b" = .ok (false, []) ∧
    routeMatch zRoute [] "/a/x/z" = .ok (false, []) ∧
    routeMatch zRoute [] "/a/x/b" = .ok (true, [("id", Value.vStr "b")]) := by
  refine ⟨?_, rfl, rfl, rfl⟩
  intro s1 s2 hne1 hne2 hok1 hok2
  have hm : matchToks dupRoute.toks
      (String.mk ('/' :: (s1 ++ '/' :: 'x' :: '/' :: s2))).data = some [s1, s2] := by
    show matchToks [Tok.lit '/', Tok.capture, Tok.lit '/', Tok.lit 'x', Tok.lit '/',
      Tok.capture] ('/' :: (s1 ++ '/' :: 'x' :: '/' :: s2)) = some [s1, s2]
    rw [matchToks_lit_cons, if_pos rfl, matchToks_cap_slash hne1 hok1,
      matchToks_lit_cons, if_pos rfl, matchToks_lit_cons, if_pos rfl,
      matchToks_cap_end hne2 hok2]
    rfl
  unfold routeMatch
  rw [hm]
  rfl

/-- Claim C9 witness: the duplicate-name binding at concrete segments. -/
theorem C9_duplicate_keys_witness :
    routeMatch dupRoute [] (String.mk ('/' :: (['a'] ++ '/' :: 'x' :: '/' :: ['b']))) =
      .ok (true, [("id", Value.vStr (String.mk ['b']))]) :=
  C9_duplicate_keys.1 ['a'] ['b'] (by decide) (by decide) (by decide) (by decide)

/-- Claim C3 counterexample: an `invalid` violation as emitted by the
decoder carries no `source` property (only `resource`, `field`,
`type_expected`, `code`), so "every violation has the fields resource,
field, source, and code" fails. -/
theorem C3_violation_fields_counterexample :
    collectParams "root" [("x", Value.vStr "v")] [] [] [("x", neverParam)] [] [] =
      .ok ([{ resource := "root", field := "x", source := none,
              type_expected := some "json", code := "invalid" }], []) ∧
    ({ resource := "root", field := "x", source := none,
       type_expected := some "json", code := "invalid" } : Violation).source = none :=
  ⟨rfl, rfl⟩

/-- Claim C3 (amended): every emitted violation names the resource and the
violated field and has `code` in `{missing_field, invalid}`;
`missing_field` records carry the parameter's `source` and no
`type_expected`; `invalid` records carry `type_expected` (the type's
display name) and no `source`. -/
theorem C3_violation_fields (res : String) (ps : List (String × Param))
    (body : List (String × Value)) (query : List (String × String))
    (urlp : List (String × Value)) (errs : List Violation)
    (binds : List (String × Value))
    (h : collectParams res body query urlp ps [] [] = .ok (errs, binds)) :
    ∀ v ∈ errs, ∃ kp ∈ ps, v.resource = res ∧ v.field = kp.1 ∧
      ((v.code = "missing_field" ∧ v.source = some kp.2.source ∧ v.type_expected = none) ∨
       (v.code = "invalid" ∧ v.source = none ∧ v.type_expected = some kp.2.type.name)) := by
  intro v hv
  have haux := collectParams_errs_aux ps res body query urlp [] [] errs binds h
  rw [haux, List.nil_append] at hv
  obtain ⟨kp, hkp, hvo⟩ := List.mem_filterMap.mp hv
  refine ⟨kp, hkp, ?_⟩
  unfold violationOf at hvo
  cases hdec : decodeOne res kp.1 kp.2 body query urlp with
  | error e => rw [hdec] at hvo; cases hvo
  | ok out =>
    obtain ⟨vio?, val?⟩ := out
    rw [hdec] at hvo
    cases vio? with
    | none => cases hvo
    | some v0 =>
      have hv0 : v0 = v := by
        simpa using hvo
      subst hv0
      exact decodeOne_shape hdec

/-- Claim C3 witness: the amended statement at the concrete `invalid` run. -/
theorem C3_violation_fields_witness :
    ∃ kp ∈ [("x", neverParam)],
      ({ resource := "root", field := "x", source := none,
         type_expected := some "json", code := "invalid" } : Violation).resource = "root" ∧
      ({ resource := "root", field := "x", source := none,
         type_expected := some "json", code := "invalid" } : Violation).field = kp.1 ∧
      ((({ resource := "root", field := "x", source := none,
           type_expected := some "json", code := "invalid" } : Violation).code = "missing_field" ∧
        ({ resource := "root", field := "x", source := none,
           type_expected := some "json", code := "invalid" } : Violation).source = some kp.2.source ∧
        ({ resource := "root", field := "x", source := none,
           type_expected := some "json", code := "invalid" } : Violation).type_expected = none) ∨
       (({ resource := "root", field := "x", source := none,
           type_expected := some "json", code := "invalid" } : Violation).code = "invalid" ∧
        ({ resource := "root", field := "x", source := none,
           type_expected := some "json", code := "invalid" } : Violation).source = none ∧
        ({ resource := "root", field := "x", source := none,
           type_expected := some "json", code := "invalid" } : Violation).type_expected =
          some kp.2.type.name)) :=
  C3_violation_fields "root" [("x", neverParam)] [("x", Value.vStr "v")] [] [] _ _ rfl
    { resource := "root", field := "x", source := none,
      type_expected := some "json", code := "invalid" }
    (by decide)

/-- Claim C4: whenever the decoder collected at least one violation, it
responds `422` with `Content-Type: application/json` and the JSON object
`{message: "Validation failed", errors: [...]}` holding all collected
violations, and never forwards to the next middleware. -/
theorem C4_error_response (name? : Option String) (ps : List (String × Param))
    (body : List (String × Value)) (query : List (String × String))
    (urlp : List (String × Value)) (errs : List Violation)
    (binds : List (String × Value))
    (h : collectParams (name?.getD "root") body query urlp ps [] [] = .ok (errs, binds))
    (hne : errs ≠ []) :
    decodeParams name? ps body query urlp =
      .ok (.response 422 [("Content-Type", "application/json")]
        (.obj [("message", Json.str "Validation failed"),
               ("errors", Json.arr (errs.map vioJson))])) ∧
    ∀ bs, decodeParams name? ps body query urlp ≠ .ok (.next bs) := by
  have hd : decodeParams name? ps body query urlp =
      .ok (.response 422 [("Content-Type", "application/json")]
        (.obj [("message", Json.str "Validation failed"),
               ("errors", Json.arr (errs.map vioJson))])) := by
    unfold decodeParams
    simp only [h]
    rw [if_neg (by simpa using hne)]
  refine ⟨hd, fun bs hbs => ?_⟩
  rw [hd] at hbs
  exact Outcome.noConfusion (Except.ok.inj hbs)

/-- Claim C4 witness: the 422 response for two missing required fields. -/
theorem C4_error_response_witness :
    decodeParams none [("a", reqBodyParam), ("b", reqBodyParam)] [] [] [] =
      .ok (.response 422 [("Content-Type", "application/json")]
        (.obj [("message", Json.str "Validation failed"),
               ("errors", Json.arr
                 ([missingRec "root" "a" reqBodyParam,
                   missingRec "root" "b" reqBodyParam].map vioJson))])) :=
  (C4_error_response none [("a", reqBodyParam), ("b", reqBodyParam)] [] [] []
    [missingRec "root" "a" reqBodyParam, missingRec "root" "b" reqBodyParam] []
    rfl (by decide)).1

/-- Claim C5: the decoder evaluates every declared parameter independently
and aggregates: the error list is exactly one violation per violated
parameter, in declaration order (so two independent violations give a
list of length 2), never a fail-fast stop. -/
theorem C5_aggregation :
    (∀ (res : String) (body : List (String × Value)) (query : List (String × String))
      (urlp : List (String × Value)) (ps : List (String × Param))
      (errs : List Violation) (binds : List (String × Value)),
      collectParams res body query urlp ps [] [] = .ok (errs, binds) →
      errs = ps.filterMap (fun kp => violationOf res kp.1 kp.2 body query urlp)) ∧
    (collectParams "root" [] [] [] [("a", reqBodyParam), ("b", reqBodyParam)] [] [] =
      .ok ([missingRec "root" "a" reqBodyParam, missingRec "root" "b" reqBodyParam], []) ∧
     [missingRec "root" "a" reqBodyParam, missingRec "root" "b" reqBodyParam].length = 2) := by
  refine ⟨?_, rfl, rfl⟩
  intro res body query urlp ps errs binds h
  simpa using collectParams_errs_aux ps res body query urlp [] [] errs binds h

/-- Claim C5 witness: the per-parameter error list at a concrete request
violating two parameters. -/
theorem C5_aggregation_witness :
    [missingRec "root" "a" reqBodyParam, missingRec "root" "b" reqBodyParam] =
      [("a", reqBodyParam), ("b", reqBodyParam)].filterMap
        (fun kp => violationOf "root" kp.1 kp.2 [] [] []) :=
  C5_aggregation.1 "root" [] [] [] [("a", reqBodyParam), ("b", reqBodyParam)] _ _ rfl

/-- Claim C7 counterexample: the segment `"\"` has length 1 and contains
no `/`, yet the compiled capture rejects it — the escaping pass also
excluded the backslash from the capture's character class. -/
theorem C7_capture_class_counterexample :
    (scanTpl "/x/:n".data).1 = [Tok.lit '/', Tok.lit 'x', Tok.lit '/', Tok.capture] ∧
    "\\".data.length ≥ 1 ∧ '/' ∉ "\\".data ∧
    matchToks (scanTpl "/x/:n".data).1 ("/x/".data ++ "\\".data) = none := by
  decide

/-- Claim C7 (amended): each `/:name` segment compiles to a capture that
accepts exactly the non-empty strings of characters that are neither `/`
nor `\` (the escaping pass turns the class `[^\/]` into `[^\\/]`). -/
theorem C7_capture_class :
    (∀ s : List Char,
      matchToks [Tok.capture] s = some [s] ↔
        (s ≠ [] ∧ ∀ c ∈ s, ¬ (c = '/' ∨ c = '\\'))) ∧
    (scanTpl "/x/:n".data).1 = [Tok.lit '/', Tok.lit 'x', Tok.lit '/', Tok.capture] := by
  refine ⟨?_, by decide⟩
  intro s
  constructor
  · intro h
    obtain ⟨n, h1, hk, caps', hm, _⟩ := matchToks_cap_inv h
    have hdrop : s.drop n = [] := by
      cases hd : s.drop n with
      | nil => rfl
      | cons d t => rw [hd, matchToks_nil_cons] at hm; cases hm
    have hlen : s.length ≤ n := by
      have hlg := congrArg List.length hdrop
      rw [List.length_drop] at hlg
      simp only [List.length_nil] at hlg
      omega
    constructor
    · intro hs
      subst hs
      simp only [List.takeWhile_nil, List.length_nil] at hk
      omega
    · intro c hc
      have hcs : c ∈ s.take n := by
        rw [List.take_of_length_le hlen]
        exact hc
      have := mem_take_takeWhile hk hcs
      simpa [capOk] using this
  · rintro ⟨hne, hok⟩
    exact matchToks_cap_end hne (fun c hc => by simpa [capOk] using hok c hc)

/-- Claim C8: a template segment `/:name` whose name is declared with a
non-empty source other than `"url"` makes route construction fail with a
conflicting-source error; no `RouteSpec` is produced. -/
theorem C8_conflicting_source (route : String) (opts : RouteOptions)
    (reType : String → Ty) (get : TypeSpec → Ty) (nm : String) (pin : ParamIn)
    (s : String) (hlk : opts.params.lookup nm = some pin)
    (hsrc : (wrapBare pin).source? = some s) (hs1 : s ≠ "") (hs2 : s ≠ "url")
    (hmem : nm ∈ (scanTpl route.data).2) :
    ∃ msg, Route.make route opts reType get = .error (.conflictingSource msg) := by
  have hlk2 : (opts.params.map (fun kp => (kp.1, wrapBare kp.2))).lookup nm =
      some (wrapBare pin) := by
    rw [lookup_map_wrap, hlk]
    rfl
  obtain ⟨msg, hmsg⟩ := normCore_conflict (route.data.length + 1) route.data _
    nm (wrapBare pin) s hlk2 hsrc hs1 hs2 hmem
  refine ⟨msg, ?_⟩
  unfold Route.make
  simp only [hmsg]

/-- Claim C8 witness: declaring `source: "query"` for URL segment `id`
of `/users/:id` aborts construction with a conflicting-source error. -/
theorem C8_conflicting_source_witness :
    ∃ msg, Route.make "/users/:id"
        { params := [("id", ParamIn.decl { source? := some "query" })] }
        (fun _ => strTy) (fun _ => strTy) = .error (.conflictingSource msg) :=
  C8_conflicting_source "/users/:id"
    { params := [("id", ParamIn.decl { source? := some "query" })] }
    (fun _ => strTy) (fun _ => strTy) "id" (ParamIn.decl { source? := some "query" })
    "query" rfl rfl (by decide) (by decide) (by decide)

/-- Claim C10: an exception from `check` on a present body value
propagates out of the decoder (it is not degraded to a violation), while
an exception from `parse` on a present query value is caught and becomes
an `invalid` violation. -/
theorem C10_check_throw (name? : Option String) (k : String) (p : Param)
    (body : List (String × Value)) (query : List (String × String))
    (urlp : List (String × Value)) :
    (∀ (v : Value) (e : Unit), p.source = "body" → body.lookup k = some v →
      p.type.check v = .error e →
      decodeOne (name?.getD "root") k p body query urlp = .error e ∧
      decodeParams name? [(k, p)] body query urlp = .error e) ∧
    (∀ raw : String, p.source = "query" → query.lookup k = some raw →
      p.type.parse (Value.vStr raw) = .error () →
      decodeOne (name?.getD "root") k p body query urlp =
        .ok (some (invalidRec (name?.getD "root") k p), none)) := by
  constructor
  · intro v e hsrc hlk hchk
    have hdec : decodeOne (name?.getD "root") k p body query urlp = .error e := by
      unfold decodeOne
      rw [if_neg (by simp [hsrc, hlk])]
      rw [if_pos hsrc]
      rw [if_neg (by simp [hlk])]
      simp only [hlk, Option.getD_some, hchk]
    refine ⟨hdec, ?_⟩
    unfold decodeParams
    simp only [collectParams, hdec]
  · intro raw hsrc hlk hparse
    unfold decodeOne
    rw [if_neg (by simp [hsrc, hlk])]
    rw [if_neg (by simp [hsrc])]
    rw [if_pos hsrc]
    rw [if_neg (by simp [hlk])]
    simp only [hlk, queryVal, hparse]

/-- Claim C10 witness: a throwing body check propagates; a throwing query
parse is degraded to an `invalid` violation. -/
theorem C10_check_throw_witness :
    (decodeOne "root" "k" throwCheckParam [("k", Value.vStr "v")] [] [] = .error () ∧
     decodeParams none [("k", throwCheckParam)] [("k", Value.vStr "v")] [] [] = .error ()) ∧
    decodeOne "root" "k" throwParseParam [] [("k", "raw")] [] =
      .ok (some (invalidRec "root" "k" throwParseParam), none) :=
  ⟨(C10_check_throw none "k" throwCheckParam [("k", Value.vStr "v")] [] []).1
      (Value.vStr "v") () rfl rfl rfl,
   (C10_check_throw none "k" throwParseParam [] [("k", "raw")] []).2 "raw" rfl rfl rfl⟩

/-- Claim C2 (amended): the compiled pattern string is the anchored
`^...$` rendering of the scan, and for templates containing no raw regex
metacharacters (the source escapes only `/` and `.`), a match spans the
entire path: extending a matching path by a string containing `/` on
either side (e.g. `/users/42/extra`, `/other/users/42`) never matches.
A strict prefix of a matching path can match only by itself fully
matching the template, and a template with a raw metacharacter escapes
the guarantee — `/a/+` compiles to `^\/a\/+$`, whose `+` is a
quantifier. -/
theorem C2_anchored :
    (∀ tpl : List Char, compileRe tpl = '^' :: renderToks (scanTpl tpl).1 ++ ['$']) ∧
    (∀ (tpl p ext : List Char) (caps : List (List Char)),
      (∀ c ∈ tpl, metaFree c) →
      matchToks (scanTpl tpl).1 p = some caps → '/' ∈ ext →
      matchToks (scanTpl tpl).1 (p ++ ext) = none ∧
      matchToks (scanTpl tpl).1 (ext ++ p) = none) ∧
    compileRe "/a/+".data = "^\\/a\\/+$".data := by
  refine ⟨compileRe_renderToks, ?_, by decide⟩
  intro tpl p ext caps _ hm hext
  have hp := count_slash_of_match _ p caps hm
  have hpos : 0 < ext.count '/' := List.count_pos_iff.mpr hext
  constructor
  · cases h2 : matchToks (scanTpl tpl).1 (p ++ ext) with
    | none => rfl
    | some caps2 =>
      exfalso
      have hc := count_slash_of_match _ _ _ h2
      rw [List.count_append] at hc
      omega
  · cases h2 : matchToks (scanTpl tpl).1 (ext ++ p) with
    | none => rfl
    | some caps2 =>
      exfalso
      have hc := count_slash_of_match _ _ _ h2
      rw [List.count_append] at hc
      omega

/-- Claim C2 witness: the spec's own examples for `/users/:id`, a
metacharacter-free template. -/
theorem C2_anchored_witness :
    matchToks (scanTpl "/users/:id".data).1 ("/users/42".data ++ "/extra".data) = none ∧
    matchToks (scanTpl "/users/:id".data).1 ("/other".data ++ "/users/42".data) = none :=
  ⟨(C2_anchored.2.1 "/users/:id".data "/users/42".data "/extra".data [['4', '2']]
      (by decide) rfl (by decide)).1,
   (C2_anchored.2.1 "/users/:id".data "/users/42".data "/other".data [['4', '2']]
      (by decide) rfl (by decide)).2⟩

/-- Claim C6 counterexample: template `/a(b)` contains no `/:name`
segment (zero keys), yet the source escapes only `/` and `.`, so its
compiled pattern is `^\/a(b)$` — the raw parenthesis is a capturing
group, and the group count is 1, not 0. -/
theorem C6_capture_groups_counterexample :
    (scanTpl "/a(b)".data).2 = [] ∧
    compileRe "/a(b)".data = "^\\/a(b)$".data ∧
    groupCount (compileRe "/a(b)".data) = 1 ∧
    (scanTpl "/a(b)".data).2.length ≠ 1 := by
  decide

/-- Claim C6 (amended): for templates containing no raw regex
metacharacters, compilation produces a matcher whose capturing-group
count (unescaped `(` of the compiled pattern string) equals the number
of `/:name` occurrences, which equals the key count; the keys keep
template left-to-right order and duplicates are not deduplicated
(`/:id/x/:id` compiles to two captures and keys `["id", "id"]`).
Templates with raw metacharacters leak extra user capture groups into
the pattern and are outside this guarantee. -/
theorem C6_capture_groups :
    (∀ tpl : List Char, (∀ c ∈ tpl, metaFree c) →
      groupCount (compileRe tpl) = (scanTpl tpl).2.length ∧
      countCaptures (scanTpl tpl).1 = (scanTpl tpl).2.length) ∧
    (∀ (route : String) (opts : RouteOptions) (reType : String → Ty)
      (get : TypeSpec → Ty) (R : RouteSpec),
      Route.make route opts reType get = .ok R →
      (∀ c ∈ route.data, metaFree c) →
      groupCount (compileRe route.data) = R.keys.length ∧
      countCaptures R.toks = R.keys.length) ∧
    scanTpl "/:id/x/:id".data =
      ([Tok.lit '/', Tok.capture, Tok.lit '/', Tok.lit 'x', Tok.lit '/', Tok.capture],
        ["id", "id"]) := by
  have hmain : ∀ tpl : List Char, (∀ c ∈ tpl, metaFree c) →
      groupCount (compileRe tpl) = (scanTpl tpl).2.length ∧
      countCaptures (scanTpl tpl).1 = (scanTpl tpl).2.length := by
    intro tpl hsafe
    have h2 := scan_captures (tpl.length + 1) tpl
    exact ⟨by rw [groupCount_compileRe tpl hsafe]; exact h2, h2⟩
  refine ⟨hmain, ?_, by decide⟩
  intro route opts reType get R h hsafe
  unfold Route.make at h
  cases hn : normCore (route.data.length + 1) route.data
      (opts.params.map (fun kp => (kp.1, wrapBare kp.2))) with
  | error e => simp only [hn] at h; exact Except.noConfusion h
  | ok out =>
    obtain ⟨ts, ks, ps1⟩ := out
    simp only [hn] at h
    cases hp : normalizeParams reType get ps1 with
    | error e => simp only [hp] at h; exact Except.noConfusion h
    | ok ps2 =>
      simp only [hp, Except.ok.injEq] at h
      obtain ⟨h1, h2⟩ := normCore_scanCore _ _ _ _ _ _ hn
      rw [← h]
      constructor
      · show groupCount (compileRe route.data) = ks.length
        rw [(hmain route.data hsafe).1, h2]
        rfl
      · show countCaptures ts = ks.length
        rw [h1, h2]
        exact (hmain route.data hsafe).2

/-- Claim C6 witness: the group/key equation at the constructed route
for `/users/:id`. -/
theorem C6_capture_groups_witness :
    groupCount (compileRe "/users/:id".data) = usersRoute.keys.length ∧
    countCaptures usersRoute.toks = usersRoute.keys.length :=
  C6_capture_groups.2.1 "/users/:id" {} (fun _ => strTy) (fun _ => strTy) usersRoute
    rfl (by decide)

end Frontdoor
